import Mathlib

/-!
Shallow embedding of `src/casino.py`, a rules engine for a 40-card
capture card game (2 or 3 players).  Python lists become Lean `List`s,
in-place mutation becomes explicit state passing on the `Game` structure,
and exceptions raised by `apply_action` become `Except Game Game`, where
the `error` payload is the (possibly partially mutated) state at the
moment the exception propagates — this keeps the embedding faithful to
the mutation order of the Python method bodies.
-/

namespace Casino

/-- A playing card, from `casino.Card`: `value` 1–10 (1 = Ace) and a
one-letter `suit` symbol. -/
structure Card where
  value : Nat
  suit : String
deriving DecidableEq, Repr

/-- The suit symbols `casino.SUITS`, in source order. -/
def SUITS : List String := ["S", "H", "D", "C"]

/-- The deck built in `Game._setup`: `[Card(value, suit) for suit in SUITS
for value in range(1, 11)]` — suit-major, values 1..10. -/
def fullDeck : List Card :=
  SUITS.flatMap fun s => (List.range' 1 10).map fun v => ⟨v, s⟩

/-- Embeds `casino.Build`: an ordered group of cards plus the declared total.
The Python field is annotated `int` but the annotation is not enforced,
so the model keeps the `Optional`-typed payload it actually receives
from `Action.target_total`. -/
structure Build where
  cards : List Card
  total : Option Nat
deriving DecidableEq, Repr

/-- Embeds `casino.Player`. -/
structure Player where
  name : String
  hand : List Card
  captured : List Card
deriving DecidableEq, Repr

/-- Embeds `casino.Action`: one dataclass with a `kind` tag and optional index
payloads, exactly as in the source. -/
structure Action where
  kind : String
  hand_index : Option Nat := none
  table_index : Option Nat := none
  build_index : Option Nat := none
  target_total : Option Nat := none
  steal_from : Option Nat := none
deriving DecidableEq, Repr

/-- Embeds the mutable fields of `casino.Game`. -/
structure Game where
  playerCount : Nat
  players : List Player
  table : List Card
  builds : List Build
  stock : List Card
  lastCapturer : Option Nat
  activePlayer : Nat
deriving DecidableEq, Repr

/-- Python `list.pop(i)`: the removed element and the remaining list,
`none` when the index is out of range (an `IndexError` in the source). -/
def popIdx {α : Type} (l : List α) (i : Nat) : Option (α × List α) :=
  match l.get? i with
  | none => none
  | some x => some (x, l.eraseIdx i)

/-- The hand-dealing loop of `Game._setup`: each of `k` players takes
`per` cards off the front of the deck; returns the hands and the rest. -/
def dealHands : Nat → Nat → List Card → List (List Card) × List Card
  | 0, _, deck => ([], deck)
  | k + 1, per, deck =>
    let (hs, rest) := dealHands k per (deck.drop per)
    (deck.take per :: hs, rest)

/-- Players as built in `Game.__init__`: names `P1`, `P2`, …, given their
dealt hands and empty capture piles. -/
def mkPlayers : Nat → List (List Card) → List Player
  | _, [] => []
  | i, h :: hs => ⟨"P" ++ toString (i + 1), h, []⟩ :: mkPlayers (i + 1) hs

/-- The card searched for by `Game._resolve_three_of_hearts_exchange`. -/
def threeOfHearts : Card := ⟨3, "H"⟩

/-- The player scan of `_resolve_three_of_hearts_exchange`: the first
player holding the 3♥ loses it (Python `list.remove`: first occurrence),
gains the starter at the end of the hand, and the 3♥ is reported as the
new table card; `none` when nobody holds it. -/
def exchangeLoop (starter : Card) : List Player → Option (List Player × Card)
  | [] => none
  | p :: ps =>
    if threeOfHearts ∈ p.hand then
      some ({ p with hand := p.hand.erase threeOfHearts ++ [starter] } :: ps, threeOfHearts)
    else
      match exchangeLoop starter ps with
      | none => none
      | some (ps', c) => some (p :: ps', c)

/-- Embeds `Game._resolve_three_of_hearts_exchange`. -/
def resolveThreeOfHeartsExchange (g : Game) : Game :=
  match g.table.head? with
  | none => g
  | some starter =>
    match exchangeLoop starter g.players with
    | none => g
    | some (ps, c) => { g with players := ps, table := g.table.set 0 c }

/-- Embeds `Game.__init__` together with `Game._setup`, parameterised by the
already-shuffled deck (the source shuffles with an injected `rng`).
`none` models the `ValueError` for a player count other than 2 or 3, and
the `IndexError` of `deck.pop()` when the deck has no starter left in the
3-player variant (never the case for a real 40-card deck). -/
def setupGame (n : Nat) (deck : List Card) : Option Game :=
  if n = 2 then
    let (hs, rest) := dealHands 2 10 deck
    some { playerCount := 2, players := mkPlayers 0 hs, table := [], builds := [],
           stock := rest, lastCapturer := none, activePlayer := 0 }
  else if n = 3 then
    let (hs, rest) := dealHands 3 13 deck
    match rest.getLast? with
    | none => none
    | some starter =>
      some (resolveThreeOfHeartsExchange
        { playerCount := 3, players := mkPlayers 0 hs, table := [starter], builds := [],
          stock := [], lastCapturer := none, activePlayer := 0 })
  else none

/-- The capture loop of `Game.legal_moves`: one `capture` action per loose
table card matching the hand card's value; `ti` threads `enumerate`. -/
def captureMoves (hi : Nat) (card : Card) : Nat → List Card → List Action
  | _, [] => []
  | ti, tc :: rest =>
    (if card.value = tc.value then
       [{ kind := "capture", hand_index := some hi, table_index := some ti }]
     else [])
    ++ captureMoves hi card (ti + 1) rest

/-- The capture-build loop of `Game.legal_moves`: one `capture_build` per
build whose total equals the hand card's value. -/
def captureBuildMoves (hi : Nat) (card : Card) : Nat → List Build → List Action
  | _, [] => []
  | bi, b :: rest =>
    (if some card.value = b.total then
       [{ kind := "capture_build", hand_index := some hi, build_index := some bi }]
     else [])
    ++ captureBuildMoves hi card (bi + 1) rest

/-- The build loop of `Game.legal_moves`: for each loose table card, offer
`build` at `card.value + table_card.value` when some *other* hand card
(value inequality via the frozen dataclass `!=`) has that value. -/
def buildMoves (hand : List Card) (hi : Nat) (card : Card) : Nat → List Card → List Action
  | _, [] => []
  | ti, tc :: rest =>
    (if ∃ hc ∈ hand, hc ≠ card ∧ hc.value = card.value + tc.value then
       [{ kind := "build", hand_index := some hi, table_index := some ti,
          target_total := some (card.value + tc.value) }]
     else [])
    ++ buildMoves hand hi card (ti + 1) rest

/-- The outer hand loop of `Game.legal_moves`: per hand card, a `throw`,
then its capture, capture-build and build actions, in source order. -/
def handMoves (g : Game) (player : Player) : Nat → List Card → List Action
  | _, [] => []
  | hi, card :: rest =>
    [{ kind := "throw", hand_index := some hi }]
    ++ captureMoves hi card 0 g.table
    ++ captureBuildMoves hi card 0 g.builds
    ++ buildMoves player.hand hi card 0 g.table
    ++ handMoves g player (hi + 1) rest

/-- Inner steal loop of `Game.legal_moves`: given an opponent's top
captured card, one `steal_build` per loose table card whose sum with it is
matched by some card of the acting hand. -/
def stealMovesForTable (hand : List Card) (top : Card) (oi : Nat) : Nat → List Card → List Action
  | _, [] => []
  | ti, tc :: rest =>
    (if ∃ hc ∈ hand, hc.value = top.value + tc.value then
       [{ kind := "steal_build", table_index := some ti,
          target_total := some (top.value + tc.value), steal_from := some oi }]
     else [])
    ++ stealMovesForTable hand top oi (ti + 1) rest

/-- Outer steal loop of `Game.legal_moves`: skip the acting player and
opponents with empty piles; otherwise steal options against the
opponent's most recently captured card. -/
def stealMoves (g : Game) (player : Player) (pIdx : Nat) : Nat → List Player → List Action
  | _, [] => []
  | oi, opp :: rest =>
    (if oi = pIdx ∨ opp.captured = [] then []
     else
       match opp.captured.getLast? with
       | none => []
       | some top => stealMovesForTable player.hand top oi 0 g.table)
    ++ stealMoves g player pIdx (oi + 1) rest

/-- Embeds `Game.legal_moves`.  The source indexes `self.players[player_index]`
directly (an `IndexError` for a bad index); the claims only ever use
valid player indices, for which this definition matches the source. -/
def legalMoves (g : Game) (pIdx : Nat) : List Action :=
  match g.players.get? pIdx with
  | none => []
  | some player =>
    handMoves g player 0 player.hand ++ stealMoves g player pIdx 0 g.players

/-- Embeds `Game.apply_action`.  An `Except.error s` result models a raised Python
exception with the game left in state `s`; the source pops operands in
statement order, so a failure part-way through leaves the earlier pops
applied (e.g. in `capture` the hand card is popped before the table
lookup), which this definition reproduces exactly. -/
def applyAction (g : Game) (pIdx : Nat) (a : Action) : Except Game Game :=
  match g.players.get? pIdx with
  | none => .error g
  | some player =>
    if a.kind = "throw" then
      match a.hand_index with
      | none => .error g
      | some hi =>
        match popIdx player.hand hi with
        | none => .error g
        | some (card, hand') =>
          .ok { g with players := g.players.set pIdx { player with hand := hand' },
                       table := g.table ++ [card] }
    else if a.kind = "capture" then
      match a.hand_index with
      | none => .error g
      | some hi =>
        match popIdx player.hand hi with
        | none => .error g
        | some (card, hand') =>
          let g1 := { g with players := g.players.set pIdx { player with hand := hand' } }
          match a.table_index with
          | none => .error g1
          | some ti =>
            match popIdx g.table ti with
            | none => .error g1
            | some (tcard, table') =>
              .ok { g with
                    players := g.players.set pIdx
                      { player with hand := hand',
                                    captured := player.captured ++ [card, tcard] },
                    table := table',
                    lastCapturer := some pIdx }
    else if a.kind = "capture_build" then
      match a.hand_index with
      | none => .error g
      | some hi =>
        match popIdx player.hand hi with
        | none => .error g
        | some (card, hand') =>
          let g1 := { g with players := g.players.set pIdx { player with hand := hand' } }
          match a.build_index with
          | none => .error g1
          | some bi =>
            match popIdx g.builds bi with
            | none => .error g1
            | some (build, builds') =>
              .ok { g with
                    players := g.players.set pIdx
                      { player with hand := hand',
                                    captured := player.captured ++ card :: build.cards },
                    builds := builds',
                    lastCapturer := some pIdx }
    else if a.kind = "build" then
      match a.hand_index with
      | none => .error g
      | some hi =>
        match popIdx player.hand hi with
        | none => .error g
        | some (card, hand') =>
          let g1 := { g with players := g.players.set pIdx { player with hand := hand' } }
          match a.table_index with
          | none => .error g1
          | some ti =>
            match popIdx g.table ti with
            | none => .error g1
            | some (tcard, table') =>
              .ok { g1 with table := table',
                            builds := g.builds ++ [⟨[card, tcard], a.target_total⟩] }
    else if a.kind = "steal_build" then
      match a.steal_from with
      | none => .error g
      | some sf =>
        match g.players.get? sf with
        | none => .error g
        | some opponent =>
          match opponent.captured.getLast? with
          | none => .error g
          | some stolen =>
            let opponent' : Player := { opponent with captured := opponent.captured.dropLast }
            let g1 := { g with players := g.players.set sf opponent' }
            match a.table_index with
            | none => .error g1
            | some ti =>
              match popIdx g.table ti with
              | none => .error g1
              | some (tcard, table') =>
                .ok { g1 with table := table',
                              builds := g.builds ++ [⟨[stolen, tcard], a.target_total⟩] }
    else .error g

/-- Embeds `Game.collect_remaining_table`: a no-op when `last_capturer` is unset,
otherwise the table and every build's cards are appended to the last
capturer's pile and both are cleared.  The source indexes
`self.players[self.last_capturer]` directly; an out-of-range capturer
(never produced by the engine) is modelled as leaving the state alone. -/
def collectRemainingTable (g : Game) : Game :=
  match g.lastCapturer with
  | none => g
  | some li =>
    match g.players.get? li with
    | none => g
    | some player =>
      { g with
        players := g.players.set li
          { player with captured :=
              player.captured ++ g.table ++ g.builds.flatMap Build.cards },
        table := [], builds := [] }

/-- The per-player loop of `Game._deal_second_round`: each player takes
`stock[:10]` in order. -/
def dealSecondLoop : List Player → List Card → List Player × List Card
  | [], stock => ([], stock)
  | p :: ps, stock =>
    let (ps', stock') := dealSecondLoop ps (stock.drop 10)
    ({ p with hand := p.hand ++ stock.take 10 } :: ps', stock')

/-- Embeds `Game._deal_second_round`. -/
def dealSecondRound (g : Game) : Game :=
  if g.playerCount ≠ 2 ∨ g.stock = [] then g
  else if g.players.any fun p => !p.hand.isEmpty then g
  else
    let (ps, stock') := dealSecondLoop g.players g.stock
    { g with players := ps, stock := stock' }

/-- Embeds `Game.advance_turn`. -/
def advanceTurn (g : Game) : Game :=
  dealSecondRound { g with activePlayer := (g.activePlayer + 1) % g.playerCount }

/-- Embeds `Game.is_over`. -/
def isOver (g : Game) : Bool :=
  (g.players.all fun p => p.hand.isEmpty) && g.stock.isEmpty

/-- The per-pile body of `Game.score`. -/
def scorePile (pile : List Card) : Nat :=
  let aces := pile.countP fun c => c.value == 1
  let twoSpades := pile.countP fun c => c.value == 2 && c.suit == "S"
  let tenDiamonds := pile.countP fun c => c.value == 10 && c.suit == "D"
  let spades := pile.countP fun c => c.suit == "S"
  let spadePoints := if 6 ≤ spades then 2 else if spades = 5 then 1 else 0
  let totalCardsBonus := if 21 ≤ pile.length then 1 else 0
  aces + twoSpades + tenDiamonds + spadePoints + totalCardsBonus

/-- Embeds `Game.score`. -/
def score (g : Game) : List Nat :=
  g.players.map fun p => scorePile p.captured

/-- All cards a player holds: hand plus capture pile, as a multiset. -/
def playerCards (p : Player) : Multiset Card :=
  (p.hand : Multiset Card) + (p.captured : Multiset Card)

/-- A build's cards as a multiset. -/
def buildCards (b : Build) : Multiset Card :=
  (b.cards : Multiset Card)

/-- Every card in the game: all hands and piles, the loose table cards,
all build cards, and the stock. -/
def gameCards (g : Game) : Multiset Card :=
  (g.players.map playerCards).sum + (g.table : Multiset Card)
    + (g.builds.map buildCards).sum + (g.stock : Multiset Card)

/-- Scoring as the specification words it, for comparison with
`scorePile`: +1 per Ace, +1 *if* the 2♠ is present, +1 *if* the 10♦ is
present, the spade-majority bonus, and the 21-card bonus. -/
def specScore (pile : List Card) : Nat :=
  (pile.countP fun c => c.value == 1)
    + (if (⟨2, "S"⟩ : Card) ∈ pile then 1 else 0)
    + (if (⟨10, "D"⟩ : Card) ∈ pile then 1 else 0)
    + (if 6 ≤ pile.countP (fun c => c.suit == "S") then 2
       else if pile.countP (fun c => c.suit == "S") = 5 then 1 else 0)
    + (if 21 ≤ pile.length then 1 else 0)

/-- The spec's first scoring example: exactly {A♠, A♥, 2♠, 10♦}. -/
def examplePileA : List Card := [⟨1, "S"⟩, ⟨1, "H"⟩, ⟨2, "S"⟩, ⟨10, "D"⟩]

/-- The spec's second scoring example: 22 cards, no aces, not the 2♠,
not the 10♦, exactly 6 spades. -/
def examplePileB : List Card :=
  [⟨3, "S"⟩, ⟨4, "S"⟩, ⟨5, "S"⟩, ⟨6, "S"⟩, ⟨7, "S"⟩, ⟨8, "S"⟩,
   ⟨2, "H"⟩, ⟨3, "H"⟩, ⟨4, "H"⟩, ⟨5, "H"⟩, ⟨6, "H"⟩, ⟨7, "H"⟩, ⟨8, "H"⟩, ⟨9, "H"⟩,
   ⟨2, "D"⟩, ⟨3, "D"⟩, ⟨4, "D"⟩, ⟨5, "D"⟩, ⟨6, "D"⟩, ⟨7, "D"⟩, ⟨8, "D"⟩, ⟨9, "D"⟩]

/-- First player of the mid-game test state `wGame`. -/
def wGameP1 : Player := ⟨"P1", [⟨5, "S"⟩, ⟨3, "D"⟩, ⟨7, "S"⟩], [⟨7, "C"⟩, ⟨9, "H"⟩]⟩

/-- Second player of the mid-game test state `wGame`. -/
def wGameP2 : Player := ⟨"P2", [⟨2, "C"⟩], [⟨2, "H"⟩, ⟨4, "D"⟩]⟩

/-- A mid-game test state used for concrete witnesses: two players, a
loose table, one build, a non-empty stock, and no capture made yet. -/
def wGame : Game :=
  { playerCount := 2,
    players := [wGameP1, wGameP2],
    table := [⟨3, "H"⟩, ⟨5, "D"⟩],
    builds := [⟨[⟨1, "S"⟩, ⟨2, "S"⟩], some 3⟩],
    stock := [⟨6, "C"⟩], lastCapturer := none, activePlayer := 0 }

/-- The state `wGame` with a recorded last capturer, for sweep witnesses. -/
def wGameLC : Game := { wGame with lastCapturer := some 1 }

/-- The state `wGame` after the failed `capture` whose table index is out of range:
the hand card has already been popped when the table lookup raises. -/
def wGameAfterBadCapture : Game :=
  { wGame with
    players := [⟨"P1", [⟨3, "D"⟩, ⟨7, "S"⟩], [⟨7, "C"⟩, ⟨9, "H"⟩]⟩,
                ⟨"P2", [⟨2, "C"⟩], [⟨2, "H"⟩, ⟨4, "D"⟩]⟩] }

/-- A default game value, used only to read a concrete `setupGame`
result out of its `Option` in closed statements. -/
def emptyGame : Game :=
  { playerCount := 0, players := [], table := [], builds := [], stock := [],
    lastCapturer := none, activePlayer := 0 }

/-- States reachable by the engine: a fresh deal of some shuffle of the
full deck, followed by legal moves, turn advances (with the second-round
deal), and the end-of-game sweep. -/
inductive Reachable : Game → Prop where
  | init : ∀ n deck g, deck.Perm fullDeck → setupGame n deck = some g → Reachable g
  | step : ∀ g p a g', Reachable g → a ∈ legalMoves g p →
      applyAction g p a = .ok g' → Reachable g'
  | turn : ∀ g, Reachable g → Reachable (advanceTurn g)
  | sweep : ∀ g, Reachable g → Reachable (collectRemainingTable g)

/-! ### Basic list and multiset lemmas -/

theorem popIdx_eq_some {α : Type} {l l' : List α} {i : Nat} {x : α} :
    popIdx l i = some (x, l') ↔ l.get? i = some x ∧ l' = l.eraseIdx i := by
  unfold popIdx
  cases h : l.get? i with
  | none => simp
  | some y =>
    simp only [Option.some.injEq, Prod.mk.injEq]
    constructor
    · rintro ⟨rfl, rfl⟩; exact ⟨rfl, rfl⟩
    · rintro ⟨hy, rfl⟩; cases hy; exact ⟨rfl, rfl⟩

theorem get?_lt_length {α : Type} {l : List α} {i : Nat} {x : α}
    (h : l.get? i = some x) : i < l.length := by
  rw [List.get?_eq_getElem?] at h
  exact (List.getElem?_eq_some.mp h).1

theorem get?_decomp {α : Type} {l : List α} {i : Nat} {x : α}
    (h : l.get? i = some x) : l = l.take i ++ x :: l.drop (i + 1) := by
  have hlt := get?_lt_length h
  have hx : l[i] = x := by
    rw [List.get?_eq_getElem?, List.getElem?_eq_getElem hlt] at h
    exact Option.some.inj h
  conv_lhs => rw [← List.take_append_drop i l, List.drop_eq_getElem_cons hlt, hx]

theorem set_decomp {α : Type} {l : List α} {i : Nat} {x : α} (q : α)
    (h : l.get? i = some x) : l.set i q = l.take i ++ q :: l.drop (i + 1) := by
  rw [List.set_eq_take_append_cons_drop, if_pos (get?_lt_length h)]

theorem coe_pop {α : Type} {l l' : List α} {i : Nat} {x : α}
    (h : popIdx l i = some (x, l')) :
    (l : Multiset α) = (l' : Multiset α) + {x} := by
  obtain ⟨hg, rfl⟩ := popIdx_eq_some.mp h
  conv_lhs => rw [get?_decomp hg]
  rw [List.eraseIdx_eq_take_drop_succ]
  simp only [← Multiset.coe_add, ← Multiset.cons_coe, ← Multiset.singleton_add]
  abel

theorem map_sum_set {α M : Type} [AddCommMonoid M] (f : α → M) :
    ∀ (l : List α) (i : Nat) (p q : α), l.get? i = some p →
      ((l.set i q).map f).sum + f p = (l.map f).sum + f q
  | [], i, p, q, h => by simp at h
  | x :: xs, 0, p, q, h => by
    simp only [List.get?] at h
    cases h
    simp [add_comm, add_left_comm, add_assoc]
  | x :: xs, i + 1, p, q, h => by
    simp only [List.get?] at h
    have ih := map_sum_set f xs i p q h
    show (List.map f (x :: xs.set i q)).sum + f p = (List.map f (x :: xs)).sum + f q
    simp only [List.map_cons, List.sum_cons, add_assoc, ih]

theorem flatten_plus_rest_dealHands :
    ∀ (k per : Nat) (deck : List Card),
      ((dealHands k per deck).1).flatten ++ (dealHands k per deck).2 = deck
  | 0, _, deck => rfl
  | k + 1, per, deck => by
    simp only [dealHands, List.flatten_cons, List.append_assoc,
      flatten_plus_rest_dealHands k per (deck.drop per), List.take_append_drop]

theorem mkPlayers_cards :
    ∀ (i : Nat) (hs : List (List Card)),
      ((mkPlayers i hs).map playerCards).sum = (hs.flatten : Multiset Card)
  | _, [] => by simp [mkPlayers]
  | i, h :: hs => by
    simp only [mkPlayers, List.map_cons, List.sum_cons, List.flatten_cons,
      ← Multiset.coe_add, mkPlayers_cards (i + 1) hs, playerCards]
    simp

theorem builds_flatMap_cards (bs : List Build) :
    (bs.map buildCards).sum = ((bs.flatMap Build.cards : List Card) : Multiset Card) := by
  induction bs with
  | nil => simp
  | cons b bs ih => simp [List.flatMap_cons, ← Multiset.coe_add, ih, buildCards]

/-! ### Conservation of cards by each operation -/

theorem gameCards_collect (g : Game) :
    gameCards (collectRemainingTable g) = gameCards g := by
  unfold collectRemainingTable
  split
  · rfl
  next li hli =>
    split
    · rfl
    next player hp =>
      set player' : Player :=
        { player with captured := player.captured ++ g.table ++ g.builds.flatMap Build.cards }
        with hplayer'
      have key := map_sum_set playerCards g.players li player player' hp
      have hful : playerCards player' = playerCards player + (g.table : Multiset Card)
          + ((g.builds.flatMap Build.cards : List Card) : Multiset Card) := by
        simp only [hplayer', playerCards, ← Multiset.coe_add]
        abel
      rw [hful] at key
      have key2 : ((g.players.set li player').map playerCards).sum
          = (g.players.map playerCards).sum + (g.table : Multiset Card)
            + ((g.builds.flatMap Build.cards : List Card) : Multiset Card) := by
        apply add_right_cancel (b := playerCards player)
        rw [key]; abel
      show ((g.players.set li player').map playerCards).sum + (([] : List Card) : Multiset Card)
          + (([] : List Build).map buildCards).sum + (g.stock : Multiset Card) = _
      rw [key2, ← builds_flatMap_cards]
      unfold gameCards
      simp only [Multiset.coe_nil, List.map_nil, List.sum_nil]
      abel

theorem dealSecondLoop_cards :
    ∀ (ps : List Player) (stock : List Card),
      (((dealSecondLoop ps stock).1).map playerCards).sum
          + (((dealSecondLoop ps stock).2 : List Card) : Multiset Card)
        = (ps.map playerCards).sum + (stock : Multiset Card)
  | [], stock => by simp [dealSecondLoop]
  | p :: ps, stock => by
    have ih := dealSecondLoop_cards ps (stock.drop 10)
    rcases hd : dealSecondLoop ps (stock.drop 10) with ⟨ps', stock'⟩
    rw [hd] at ih
    have hsplit : (stock : Multiset Card)
        = ((stock.take 10 : List Card) : Multiset Card) + ((stock.drop 10 : List Card) : Multiset Card) := by
      rw [Multiset.coe_add, List.take_append_drop]
    have hp' : playerCards { p with hand := p.hand ++ stock.take 10 }
        = playerCards p + ((stock.take 10 : List Card) : Multiset Card) := by
      simp only [playerCards, ← Multiset.coe_add]
      abel
    simp only [dealSecondLoop, hd, List.map_cons, List.sum_cons, hp']
    calc playerCards p + ((stock.take 10 : List Card) : Multiset Card) + (ps'.map playerCards).sum
          + (stock' : Multiset Card)
        = playerCards p + ((stock.take 10 : List Card) : Multiset Card)
          + ((ps'.map playerCards).sum + (stock' : Multiset Card)) := by abel
      _ = playerCards p + ((stock.take 10 : List Card) : Multiset Card)
          + ((ps.map playerCards).sum + ((stock.drop 10 : List Card) : Multiset Card)) := by
            rw [ih]
      _ = playerCards p + (ps.map playerCards).sum + (stock : Multiset Card) := by
            rw [hsplit]; abel

theorem gameCards_dealSecondRound (g : Game) :
    gameCards (dealSecondRound g) = gameCards g := by
  unfold dealSecondRound
  split
  · rfl
  split
  · rfl
  rcases hd : dealSecondLoop g.players g.stock with ⟨ps', stock'⟩
  have key := dealSecondLoop_cards g.players g.stock
  rw [hd] at key
  show (ps'.map playerCards).sum + (g.table : Multiset Card)
      + (g.builds.map buildCards).sum + (stock' : Multiset Card) = _
  unfold gameCards
  have goal2 : (ps'.map playerCards).sum + (stock' : Multiset Card)
      = (g.players.map playerCards).sum + (g.stock : Multiset Card) := key
  calc (ps'.map playerCards).sum + (g.table : Multiset Card)
        + (g.builds.map buildCards).sum + (stock' : Multiset Card)
      = (ps'.map playerCards).sum + (stock' : Multiset Card) + (g.table : Multiset Card)
        + (g.builds.map buildCards).sum := by abel
    _ = (g.players.map playerCards).sum + (g.stock : Multiset Card) + (g.table : Multiset Card)
        + (g.builds.map buildCards).sum := by rw [goal2]
    _ = _ := by abel

theorem gameCards_advanceTurn (g : Game) :
    gameCards (advanceTurn g) = gameCards g := by
  unfold advanceTurn
  rw [gameCards_dealSecondRound]
  rfl

theorem exchangeLoop_cards (starter : Card) :
    ∀ (ps ps' : List Player) (c : Card),
      exchangeLoop starter ps = some (ps', c) →
      c = threeOfHearts ∧
        (ps'.map playerCards).sum + ({threeOfHearts} : Multiset Card)
          = (ps.map playerCards).sum + ({starter} : Multiset Card)
  | [], ps', c, h => by simp [exchangeLoop] at h
  | p :: ps, ps', c, h => by
    unfold exchangeLoop at h
    split at h
    next hmem =>
      obtain ⟨rfl, rfl⟩ : ({ p with hand := p.hand.erase threeOfHearts ++ [starter] } : Player)
            :: ps = ps' ∧ threeOfHearts = c := by
        constructor
        · exact congrArg Prod.fst (Option.some.inj h)
        · exact congrArg Prod.snd (Option.some.inj h)
      refine ⟨rfl, ?_⟩
      have hh : ({threeOfHearts} : Multiset Card) + ((p.hand.erase threeOfHearts : List Card) : Multiset Card)
          = (p.hand : Multiset Card) := by
        rw [← Multiset.coe_erase, Multiset.singleton_add, Multiset.cons_erase]
        exact Multiset.mem_coe.mpr hmem
      have hp' : playerCards { p with hand := p.hand.erase threeOfHearts ++ [starter] }
            + ({threeOfHearts} : Multiset Card)
          = playerCards p + ({starter} : Multiset Card) := by
        unfold playerCards
        rw [← hh]
        simp only [← Multiset.coe_add, ← Multiset.coe_singleton]
        abel
      simp only [List.map_cons, List.sum_cons]
      calc playerCards { p with hand := p.hand.erase threeOfHearts ++ [starter] }
            + (ps.map playerCards).sum + ({threeOfHearts} : Multiset Card)
          = playerCards { p with hand := p.hand.erase threeOfHearts ++ [starter] }
            + ({threeOfHearts} : Multiset Card) + (ps.map playerCards).sum := by abel
        _ = playerCards p + ({starter} : Multiset Card) + (ps.map playerCards).sum := by rw [hp']
        _ = playerCards p + (ps.map playerCards).sum + ({starter} : Multiset Card) := by abel
    next =>
      revert h
      cases hrec : exchangeLoop starter ps with
      | none => intro h; exact absurd h (by simp)
      | some pair =>
        rcases pair with ⟨ps'', c'⟩
        intro h
        obtain ⟨rfl, rfl⟩ : p :: ps'' = ps' ∧ c' = c := by
          constructor
          · exact congrArg Prod.fst (Option.some.inj h)
          · exact congrArg Prod.snd (Option.some.inj h)
        obtain ⟨rfl, ih⟩ := exchangeLoop_cards starter ps ps'' c' hrec
        refine ⟨rfl, ?_⟩
        simp only [List.map_cons, List.sum_cons]
        calc playerCards p + (ps''.map playerCards).sum + ({threeOfHearts} : Multiset Card)
            = playerCards p + ((ps''.map playerCards).sum + ({threeOfHearts} : Multiset Card)) := by
              abel
          _ = playerCards p + ((ps.map playerCards).sum + ({starter} : Multiset Card)) := by rw [ih]
          _ = playerCards p + (ps.map playerCards).sum + ({starter} : Multiset Card) := by abel

theorem gameCards_resolveExchange (g : Game) :
    gameCards (resolveThreeOfHeartsExchange g) = gameCards g := by
  unfold resolveThreeOfHeartsExchange
  split
  · rfl
  next starter hstarter =>
    split
    · rfl
    next pair ps' c hex =>
      obtain ⟨rfl, hsum⟩ := exchangeLoop_cards starter g.players ps' c hex
      obtain ⟨tail, htable⟩ : ∃ tail, g.table = starter :: tail := by
        cases ht : g.table with
        | nil => rw [ht] at hstarter; simp at hstarter
        | cons hd tl =>
          rw [ht] at hstarter
          simp only [List.head?_cons, Option.some.injEq] at hstarter
          exact ⟨tl, by rw [hstarter]⟩
      unfold gameCards
      rw [htable]
      show (ps'.map playerCards).sum
          + (((starter :: tail).set 0 threeOfHearts : List Card) : Multiset Card)
          + (g.builds.map buildCards).sum + (g.stock : Multiset Card) = _
      show (ps'.map playerCards).sum + ((threeOfHearts :: tail : List Card) : Multiset Card)
          + (g.builds.map buildCards).sum + (g.stock : Multiset Card) = _
      simp only [← Multiset.cons_coe, ← Multiset.singleton_add]
      calc (ps'.map playerCards).sum + (({threeOfHearts} : Multiset Card) + (tail : Multiset Card))
            + (g.builds.map buildCards).sum + (g.stock : Multiset Card)
          = (ps'.map playerCards).sum + ({threeOfHearts} : Multiset Card) + ((tail : Multiset Card)
            + (g.builds.map buildCards).sum + (g.stock : Multiset Card)) := by abel
        _ = (g.players.map playerCards).sum + ({starter} : Multiset Card) + ((tail : Multiset Card)
            + (g.builds.map buildCards).sum + (g.stock : Multiset Card)) := by rw [hsum]
        _ = _ := by abel

theorem setupGame_cards {n : Nat} {deck : List Card} {g : Game}
    (hperm : deck.Perm fullDeck) (h : setupGame n deck = some g) :
    gameCards g = (fullDeck : Multiset Card) := by
  have hdeck : (deck : Multiset Card) = (fullDeck : Multiset Card) := Multiset.coe_eq_coe.mpr hperm
  have hjoin2 := flatten_plus_rest_dealHands 2 10 deck
  have hjoin3 := flatten_plus_rest_dealHands 3 13 deck
  have hlen : deck.length = 40 := by rw [hperm.length_eq]; decide
  unfold setupGame at h
  split at h
  · rcases hd : dealHands 2 10 deck with ⟨hs, rest⟩
    rw [hd] at h hjoin2
    obtain rfl := Option.some.inj h
    unfold gameCards
    simp only [mkPlayers_cards]
    rw [← hdeck, ← hjoin2]
    simp only [← Multiset.coe_add, Multiset.coe_nil, List.map_nil, List.sum_nil]
    abel
  · split at h
    · have hcomp : (dealHands 3 13 deck).2 = ((deck.drop 13).drop 13).drop 13 := rfl
      rcases hd : dealHands 3 13 deck with ⟨hs, rest⟩
      rw [hd] at h hjoin3 hcomp
      dsimp only at h hjoin3 hcomp
      have hrest : rest = deck.drop 39 := by rw [hcomp]; simp [List.drop_drop]
      have hlen1 : rest.length = 1 := by rw [hrest, List.length_drop, hlen]
      obtain ⟨a, ha⟩ := List.length_eq_one.mp hlen1
      rw [ha] at h hjoin3
      simp only [List.getLast?_singleton] at h
      obtain rfl := Option.some.inj h
      rw [gameCards_resolveExchange]
      unfold gameCards
      simp only [mkPlayers_cards]
      rw [← hdeck, ← hjoin3]
      simp only [← Multiset.coe_add, Multiset.coe_nil, Multiset.coe_singleton,
        List.map_nil, List.sum_nil]
      abel
    · exact absurd h (by simp)

theorem map_sum_pop {α M : Type} [AddCommMonoid M] (f : α → M) {l l' : List α} {i : Nat} {x : α}
    (h : popIdx l i = some (x, l')) :
    (l.map f).sum = (l'.map f).sum + f x := by
  obtain ⟨hg, rfl⟩ := popIdx_eq_some.mp h
  conv_lhs => rw [get?_decomp hg]
  rw [List.eraseIdx_eq_take_drop_succ]
  simp only [List.map_append, List.map_cons, List.sum_append, List.sum_cons]
  abel

theorem coe_pop_last {α : Type} {l : List α} {x : α} (h : l.getLast? = some x) :
    (l : Multiset α) = (l.dropLast : Multiset α) + {x} := by
  obtain ⟨ys, rfl⟩ := List.getLast?_eq_some_iff.mp h
  rw [List.dropLast_concat]
  rw [← Multiset.coe_singleton, Multiset.coe_add]

theorem gameCards_update {g : Game} {p : Nat} {player player' : Player}
    {table' : List Card} {builds' : List Build} {stock' : List Card}
    {lc : Option Nat} {ap pc : Nat}
    (hp : g.players.get? p = some player)
    (hbal : playerCards player' + (table' : Multiset Card) + (builds'.map buildCards).sum
          + (stock' : Multiset Card)
        = playerCards player + (g.table : Multiset Card) + (g.builds.map buildCards).sum
          + (g.stock : Multiset Card)) :
    gameCards { playerCount := pc, players := g.players.set p player', table := table',
                builds := builds', stock := stock', lastCapturer := lc, activePlayer := ap }
      = gameCards g := by
  unfold gameCards
  have key := map_sum_set playerCards g.players p player player' hp
  apply add_right_cancel (b := playerCards player)
  calc ((g.players.set p player').map playerCards).sum + (table' : Multiset Card)
        + (builds'.map buildCards).sum + (stock' : Multiset Card) + playerCards player
      = ((g.players.set p player').map playerCards).sum + playerCards player
        + ((table' : Multiset Card) + (builds'.map buildCards).sum
            + (stock' : Multiset Card)) := by abel
    _ = (g.players.map playerCards).sum + playerCards player'
        + ((table' : Multiset Card) + (builds'.map buildCards).sum
            + (stock' : Multiset Card)) := by rw [key]
    _ = (g.players.map playerCards).sum
        + (playerCards player' + (table' : Multiset Card) + (builds'.map buildCards).sum
            + (stock' : Multiset Card)) := by abel
    _ = (g.players.map playerCards).sum
        + (playerCards player + (g.table : Multiset Card) + (g.builds.map buildCards).sum
            + (g.stock : Multiset Card)) := by rw [hbal]
    _ = (g.players.map playerCards).sum + (g.table : Multiset Card)
        + (g.builds.map buildCards).sum + (g.stock : Multiset Card) + playerCards player := by
          abel

theorem applyAction_ok_gameCards {g : Game} {p : Nat} {a : Action} {g' : Game}
    (h : applyAction g p a = .ok g') : gameCards g' = gameCards g := by
  unfold applyAction at h
  split at h
  · exact Except.noConfusion h
  next player hp =>
    split at h
    · -- throw
      split at h
      · exact Except.noConfusion h
      next hi hhi =>
        split at h
        · exact Except.noConfusion h
        next card hand' hpop =>
          obtain rfl := Except.ok.inj h
          refine gameCards_update hp ?_
          unfold playerCards
          rw [coe_pop hpop]
          simp only [← Multiset.coe_add, ← Multiset.cons_coe, Multiset.coe_singleton,
            Multiset.coe_nil, Multiset.cons_zero, ← Multiset.singleton_add]
          abel
    · split at h
      · -- capture
        split at h
        · exact Except.noConfusion h
        next hi hhi =>
          split at h
          · exact Except.noConfusion h
          next card hand' hpop1 =>
            split at h
            · exact Except.noConfusion h
            next ti hti =>
              split at h
              · exact Except.noConfusion h
              next tcard table' hpop2 =>
                obtain rfl := Except.ok.inj h
                refine gameCards_update hp ?_
                unfold playerCards
                rw [coe_pop hpop1, coe_pop hpop2]
                simp only [← Multiset.coe_add, ← Multiset.cons_coe, Multiset.coe_singleton,
                  Multiset.coe_nil, Multiset.cons_zero, ← Multiset.singleton_add]
                abel
      · split at h
        · -- capture_build
          split at h
          · exact Except.noConfusion h
          next hi hhi =>
            split at h
            · exact Except.noConfusion h
            next card hand' hpop1 =>
              split at h
              · exact Except.noConfusion h
              next bi hbi =>
                split at h
                · exact Except.noConfusion h
                next build builds' hpopb =>
                  obtain rfl := Except.ok.inj h
                  refine gameCards_update hp ?_
                  unfold playerCards
                  rw [coe_pop hpop1, map_sum_pop buildCards hpopb]
                  unfold buildCards
                  simp only [← Multiset.coe_add, ← Multiset.cons_coe, Multiset.coe_singleton,
                    Multiset.coe_nil, Multiset.cons_zero, ← Multiset.singleton_add]
                  abel
        · split at h
          · -- build
            split at h
            · exact Except.noConfusion h
            next hi hhi =>
              split at h
              · exact Except.noConfusion h
              next card hand' hpop1 =>
                split at h
                · exact Except.noConfusion h
                next ti hti =>
                  split at h
                  · exact Except.noConfusion h
                  next tcard table' hpop2 =>
                    obtain rfl := Except.ok.inj h
                    refine gameCards_update hp ?_
                    unfold playerCards
                    rw [coe_pop hpop1, coe_pop hpop2]
                    simp only [List.map_append, List.sum_append, List.map_cons,
                      List.map_nil, List.sum_cons, List.sum_nil]
                    unfold buildCards
                    simp only [← Multiset.coe_add, ← Multiset.cons_coe, Multiset.coe_singleton,
                      Multiset.coe_nil, Multiset.cons_zero, ← Multiset.singleton_add]
                    abel
          · split at h
            · -- steal_build
              split at h
              · exact Except.noConfusion h
              next sf hsf =>
                split at h
                · exact Except.noConfusion h
                next opponent hopp =>
                  split at h
                  · exact Except.noConfusion h
                  next stolen hlast =>
                    split at h
                    · exact Except.noConfusion h
                    next ti hti =>
                      split at h
                      · exact Except.noConfusion h
                      next tcard table' hpop2 =>
                        obtain rfl := Except.ok.inj h
                        refine gameCards_update hopp ?_
                        unfold playerCards
                        rw [coe_pop_last hlast, coe_pop hpop2]
                        simp only [List.map_append, List.sum_append, List.map_cons,
                          List.map_nil, List.sum_cons, List.sum_nil]
                        unfold buildCards
                        simp only [← Multiset.coe_add, ← Multiset.cons_coe,
                          Multiset.coe_singleton, Multiset.coe_nil, Multiset.cons_zero,
                          ← Multiset.singleton_add]
                        abel
            · exact Except.noConfusion h

/-! ### Shape of the actions produced by `legalMoves` -/

theorem mem_captureMoves {hi : Nat} {card : Card} {a : Action} :
    ∀ (ti : Nat) (l : List Card), a ∈ captureMoves hi card ti l →
      ∃ j tc, l.get? j = some tc ∧ card.value = tc.value ∧
        a = { kind := "capture", hand_index := some hi, table_index := some (ti + j) }
  | ti, [], h => by simp [captureMoves] at h
  | ti, tc :: rest, h => by
    unfold captureMoves at h
    rw [List.mem_append] at h
    rcases h with h | h
    · split at h
      next hv =>
        simp only [List.mem_singleton] at h
        exact ⟨0, tc, rfl, hv, h⟩
      next => simp at h
    · obtain ⟨j, tc', hj, hv, ha⟩ := mem_captureMoves (ti + 1) rest h
      refine ⟨j + 1, tc', hj, hv, ?_⟩
      rw [ha]
      have hn : ti + 1 + j = ti + (j + 1) := by omega
      rw [hn]

theorem mem_captureBuildMoves {hi : Nat} {card : Card} {a : Action} :
    ∀ (bi : Nat) (l : List Build), a ∈ captureBuildMoves hi card bi l →
      ∃ j b, l.get? j = some b ∧ some card.value = b.total ∧
        a = { kind := "capture_build", hand_index := some hi, build_index := some (bi + j) }
  | bi, [], h => by simp [captureBuildMoves] at h
  | bi, b :: rest, h => by
    unfold captureBuildMoves at h
    rw [List.mem_append] at h
    rcases h with h | h
    · split at h
      next hv =>
        simp only [List.mem_singleton] at h
        exact ⟨0, b, rfl, hv, h⟩
      next => simp at h
    · obtain ⟨j, b', hj, hv, ha⟩ := mem_captureBuildMoves (bi + 1) rest h
      refine ⟨j + 1, b', hj, hv, ?_⟩
      rw [ha]
      have hn : bi + 1 + j = bi + (j + 1) := by omega
      rw [hn]

theorem mem_buildMoves {hand : List Card} {hi : Nat} {card : Card} {a : Action} :
    ∀ (ti : Nat) (l : List Card), a ∈ buildMoves hand hi card ti l →
      ∃ j tc, l.get? j = some tc ∧
        a = { kind := "build", hand_index := some hi, table_index := some (ti + j),
              target_total := some (card.value + tc.value) }
  | ti, [], h => by simp [buildMoves] at h
  | ti, tc :: rest, h => by
    unfold buildMoves at h
    rw [List.mem_append] at h
    rcases h with h | h
    · split at h
      next hv =>
        simp only [List.mem_singleton] at h
        exact ⟨0, tc, rfl, h⟩
      next => simp at h
    · obtain ⟨j, tc', hj, ha⟩ := mem_buildMoves (ti + 1) rest h
      refine ⟨j + 1, tc', hj, ?_⟩
      rw [ha]
      have hn : ti + 1 + j = ti + (j + 1) := by omega
      rw [hn]

theorem mem_handMoves {g : Game} {player : Player} {a : Action} :
    ∀ (hi : Nat) (rest : List Card), a ∈ handMoves g player hi rest →
      ∃ j card, rest.get? j = some card ∧
        (a = { kind := "throw", hand_index := some (hi + j) } ∨
         (∃ ti tc, g.table.get? ti = some tc ∧ card.value = tc.value ∧
            a = { kind := "capture", hand_index := some (hi + j), table_index := some ti }) ∨
         (∃ bi b, g.builds.get? bi = some b ∧ some card.value = b.total ∧
            a = { kind := "capture_build", hand_index := some (hi + j),
                  build_index := some bi }) ∨
         (∃ ti tc, g.table.get? ti = some tc ∧
            a = { kind := "build", hand_index := some (hi + j), table_index := some ti,
                  target_total := some (card.value + tc.value) }))
  | hi, [], h => by simp [handMoves] at h
  | hi, card :: rest, h => by
    unfold handMoves at h
    simp only [List.append_assoc, List.mem_append, List.mem_singleton] at h
    rcases h with h | h | h | h | h
    · exact ⟨0, card, rfl, Or.inl h⟩
    · obtain ⟨j, tc, hj, hv, ha⟩ := mem_captureMoves 0 g.table h
      rw [Nat.zero_add] at ha
      exact ⟨0, card, rfl, Or.inr (Or.inl ⟨j, tc, hj, hv, ha⟩)⟩
    · obtain ⟨j, b, hj, hv, ha⟩ := mem_captureBuildMoves 0 g.builds h
      rw [Nat.zero_add] at ha
      exact ⟨0, card, rfl, Or.inr (Or.inr (Or.inl ⟨j, b, hj, hv, ha⟩))⟩
    · obtain ⟨j, tc, hj, ha⟩ := mem_buildMoves 0 g.table h
      rw [Nat.zero_add] at ha
      exact ⟨0, card, rfl, Or.inr (Or.inr (Or.inr ⟨j, tc, hj, ha⟩))⟩
    · obtain ⟨j, card', hj, hcase⟩ := mem_handMoves (hi + 1) rest h
      have hn : hi + 1 + j = hi + (j + 1) := by omega
      rw [hn] at hcase
      exact ⟨j + 1, card', hj, hcase⟩

theorem mem_stealMovesForTable {hand : List Card} {top : Card} {oi : Nat} {a : Action} :
    ∀ (ti : Nat) (l : List Card), a ∈ stealMovesForTable hand top oi ti l →
      ∃ j tc, l.get? j = some tc ∧ (∃ hc ∈ hand, hc.value = top.value + tc.value) ∧
        a = { kind := "steal_build", table_index := some (ti + j),
              target_total := some (top.value + tc.value), steal_from := some oi }
  | ti, [], h => by simp [stealMovesForTable] at h
  | ti, tc :: rest, h => by
    unfold stealMovesForTable at h
    rw [List.mem_append] at h
    rcases h with h | h
    · split at h
      next hv =>
        simp only [List.mem_singleton] at h
        exact ⟨0, tc, rfl, hv, h⟩
      next => simp at h
    · obtain ⟨j, tc', hj, hv, ha⟩ := mem_stealMovesForTable (ti + 1) rest h
      refine ⟨j + 1, tc', hj, hv, ?_⟩
      rw [ha]
      have hn : ti + 1 + j = ti + (j + 1) := by omega
      rw [hn]

theorem mem_stealMoves {g : Game} {player : Player} {pIdx : Nat} {a : Action} :
    ∀ (oi : Nat) (l : List Player), a ∈ stealMoves g player pIdx oi l →
      ∃ j opp, l.get? j = some opp ∧ oi + j ≠ pIdx ∧ opp.captured ≠ [] ∧
        ∃ top, opp.captured.getLast? = some top ∧
          ∃ ti tc, g.table.get? ti = some tc ∧
            (∃ hc ∈ player.hand, hc.value = top.value + tc.value) ∧
            a = { kind := "steal_build", table_index := some ti,
                  target_total := some (top.value + tc.value), steal_from := some (oi + j) }
  | oi, [], h => by simp [stealMoves] at h
  | oi, opp :: rest, h => by
    unfold stealMoves at h
    rw [List.mem_append] at h
    rcases h with h | h
    · split at h
      next => simp at h
      next hcond =>
        push_neg at hcond
        obtain ⟨hne, hcap⟩ := hcond
        revert h
        cases hlast : opp.captured.getLast? with
        | none => intro h; simp at h
        | some top =>
          intro h
          obtain ⟨j, tc, hj, hhand, ha⟩ := mem_stealMovesForTable 0 g.table h
          rw [Nat.zero_add] at ha
          exact ⟨0, opp, rfl, hne, hcap, top, hlast, j, tc, hj, hhand, ha⟩
    · obtain ⟨j, opp', hj, hne, hcap, top, hlast, ti, tc, hti, hhand, ha⟩ :=
        mem_stealMoves (oi + 1) rest h
      have hn : oi + 1 + j = oi + (j + 1) := by omega
      rw [hn] at hne ha
      exact ⟨j + 1, opp', hj, hne, hcap, top, hlast, ti, tc, hti, hhand, ha⟩

theorem stealMovesForTable_nil_hand {top : Card} {oi : Nat} :
    ∀ (ti : Nat) (l : List Card), stealMovesForTable [] top oi ti l = []
  | _, [] => rfl
  | ti, tc :: rest => by
    unfold stealMovesForTable
    rw [stealMovesForTable_nil_hand (ti + 1) rest]
    simp

theorem stealMoves_nil_hand {g : Game} {player : Player} (hh : player.hand = []) {pIdx : Nat} :
    ∀ (oi : Nat) (l : List Player), stealMoves g player pIdx oi l = []
  | _, [] => rfl
  | oi, opp :: rest => by
    unfold stealMoves
    rw [stealMoves_nil_hand hh (oi + 1) rest]
    split
    · simp
    · cases opp.captured.getLast? with
      | none => simp
      | some top => simp [hh, stealMovesForTable_nil_hand]

/-- C1.  Deck conservation: in every reachable state — from the initial
deal through moves, turn advances and the final sweep — the multiset of
all cards across hands, table, builds, capture piles and stock is exactly
the 40-card deck. -/
theorem deck_conservation (g : Game) (h : Reachable g) :
    gameCards g = (fullDeck : Multiset Card) := by
  induction h with
  | init n deck g hperm hsetup => exact setupGame_cards hperm hsetup
  | step g p a g' hr hmem hok ih => rw [applyAction_ok_gameCards hok, ih]
  | turn g hr ih => rw [gameCards_advanceTurn, ih]
  | sweep g hr ih => rw [gameCards_collect, ih]

theorem deck_conservation_witness :
    gameCards ((setupGame 2 fullDeck).getD emptyGame) = (fullDeck : Multiset Card) :=
  deck_conservation _ (Reachable.init 2 fullDeck _ (List.Perm.refl _) (by decide))

/-- C2.  Legal-move soundness: every action produced by `legalMoves`
applies without error, and any state produced by a successful
`applyAction` carries exactly the same multiset of cards, so deck
conservation is preserved. -/
theorem legal_moves_sound (g : Game) (p : Nat) (a : Action) (h : a ∈ legalMoves g p) :
    (applyAction g p a).isOk = true ∧
      ∀ g', applyAction g p a = .ok g' → gameCards g' = gameCards g := by
  refine ⟨?_, fun g' hok => applyAction_ok_gameCards hok⟩
  unfold legalMoves at h
  cases hp : g.players.get? p with
  | none => rw [hp] at h; simp at h
  | some player =>
    rw [hp, List.mem_append] at h
    rcases h with h | h
    · obtain ⟨j, card, hj, hcase⟩ := mem_handMoves 0 player.hand h
      rw [Nat.zero_add] at hcase
      rw [List.get?_eq_getElem?] at hj
      rw [List.get?_eq_getElem?] at hp
      rcases hcase with ha | ⟨ti, tc, hti, hv, ha⟩ | ⟨bi, b, hbi, hv, ha⟩ | ⟨ti, tc, hti, ha⟩
      · subst ha
        simp [applyAction, popIdx, hp, hj, Except.isOk, Except.toBool,
          List.get?_eq_getElem?]
      · subst ha
        rw [List.get?_eq_getElem?] at hti
        simp [applyAction, popIdx, hp, hj, hti, Except.isOk, Except.toBool,
          List.get?_eq_getElem?]
      · subst ha
        rw [List.get?_eq_getElem?] at hbi
        simp [applyAction, popIdx, hp, hj, hbi, Except.isOk, Except.toBool,
          List.get?_eq_getElem?]
      · subst ha
        rw [List.get?_eq_getElem?] at hti
        simp [applyAction, popIdx, hp, hj, hti, Except.isOk, Except.toBool,
          List.get?_eq_getElem?]
    · obtain ⟨j, opp, hj, hne, hcap, top, hlast, ti, tc, hti, hhand, ha⟩ :=
        mem_stealMoves 0 g.players h
      rw [Nat.zero_add] at ha
      subst ha
      rw [List.get?_eq_getElem?] at hj hti hp
      simp [applyAction, popIdx, hp, hj, hlast, hti, Except.isOk, Except.toBool,
        List.get?_eq_getElem?]

theorem legal_moves_sound_witness :
    ({ kind := "capture", hand_index := some 0, table_index := some 1 } : Action)
        ∈ legalMoves wGame 0 ∧
      (applyAction wGame 0
          { kind := "capture", hand_index := some 0, table_index := some 1 }).isOk = true :=
  ⟨by decide,
   (legal_moves_sound wGame 0
      { kind := "capture", hand_index := some 0, table_index := some 1 } (by decide)).1⟩

/-- C9.  `legalMoves` is non-empty exactly when the acting player's hand
is non-empty: a non-empty hand always yields at least a throw, and an
empty hand rules out every action kind, steals included. -/
theorem legal_moves_nonempty_iff (g : Game) (p : Nat) (player : Player)
    (hp : g.players.get? p = some player) :
    legalMoves g p ≠ [] ↔ player.hand ≠ [] := by
  unfold legalMoves
  rw [hp]
  show handMoves g player 0 player.hand ++ stealMoves g player p 0 g.players ≠ [] ↔
    player.hand ≠ []
  constructor
  · intro hne hh
    apply hne
    rw [hh, stealMoves_nil_hand hh]
    simp [handMoves]
  · intro hh
    obtain ⟨c, rest, hcr⟩ := List.exists_cons_of_ne_nil hh
    rw [hcr]
    simp [handMoves]

theorem legal_moves_nonempty_iff_witness :
    (legalMoves wGame 0 ≠ [] ↔
      (⟨"P1", [⟨5, "S"⟩, ⟨3, "D"⟩, ⟨7, "S"⟩], [⟨7, "C"⟩, ⟨9, "H"⟩]⟩ : Player).hand ≠ []) :=
  legal_moves_nonempty_iff wGame 0 _ (by decide)

/-! ### Branch characterizations of `applyAction` and the sweep -/

theorem applyAction_capture_eq {g : Game} {p hi ti : Nat} {pl : Player} {card tcard : Card}
    (hp : g.players.get? p = some pl) (hhi : pl.hand.get? hi = some card)
    (hti : g.table.get? ti = some tcard) :
    applyAction g p { kind := "capture", hand_index := some hi, table_index := some ti }
      = .ok { g with
              players := g.players.set p { pl with
                hand := pl.hand.eraseIdx hi,
                captured := pl.captured ++ [card, tcard] },
              table := g.table.eraseIdx ti, lastCapturer := some p } := by
  rw [List.get?_eq_getElem?] at hp hhi hti
  simp [applyAction, popIdx, hp, hhi, hti, List.get?_eq_getElem?]

theorem applyAction_capture_build_eq {g : Game} {p hi bi : Nat} {pl : Player} {card : Card}
    {b : Build} (hp : g.players.get? p = some pl) (hhi : pl.hand.get? hi = some card)
    (hbi : g.builds.get? bi = some b) :
    applyAction g p { kind := "capture_build", hand_index := some hi, build_index := some bi }
      = .ok { g with
              players := g.players.set p { pl with
                hand := pl.hand.eraseIdx hi,
                captured := pl.captured ++ card :: b.cards },
              builds := g.builds.eraseIdx bi, lastCapturer := some p } := by
  rw [List.get?_eq_getElem?] at hp hhi hbi
  simp [applyAction, popIdx, hp, hhi, hbi, List.get?_eq_getElem?]

theorem applyAction_steal_eq {g : Game} {p si ti : Nat} (tt : Nat) {pl opp : Player}
    {cs : List Card} {c tc : Card}
    (hp : g.players.get? p = some pl) (hsi : g.players.get? si = some opp)
    (hcap : opp.captured = cs ++ [c]) (hti : g.table.get? ti = some tc) :
    applyAction g p { kind := "steal_build", table_index := some ti,
                      target_total := some tt, steal_from := some si }
      = .ok { g with players := g.players.set si { opp with captured := cs },
                     table := g.table.eraseIdx ti,
                     builds := g.builds ++ [⟨[c, tc], some tt⟩] } := by
  rw [List.get?_eq_getElem?] at hp hsi hti
  simp [applyAction, popIdx, hp, hsi, hti, hcap, List.get?_eq_getElem?,
    List.getLast?_concat, List.dropLast_concat]

theorem collect_some_eq {g : Game} {li : Nat} {pl : Player}
    (hl : g.lastCapturer = some li) (hp : g.players.get? li = some pl) :
    collectRemainingTable g
      = { g with
          players := g.players.set li { pl with
            captured := pl.captured ++ g.table ++ g.builds.flatMap Build.cards },
          table := [], builds := [] } := by
  rw [List.get?_eq_getElem?] at hp
  simp [collectRemainingTable, hl, hp]

/-- C3.  Evidence against all-or-nothing apply: a `capture` whose hand
index is valid but whose table index is out of range fails, yet the hand
card has already been removed — the error state differs from the
original state, so the rejection is not mutation-free. -/
theorem apply_action_partial_mutation :
    applyAction wGame 0 { kind := "capture", hand_index := some 0, table_index := some 5 }
      = .error wGameAfterBadCapture ∧ wGameAfterBadCapture ≠ wGame := by
  constructor
  · rfl
  · decide

/-- C4, counterexample.  With `last_capturer` unset, the sweep returns
immediately: the non-empty table is left exactly as it was, not
cleared. -/
theorem collect_no_capturer_table_not_cleared :
    collectRemainingTable wGame = wGame ∧ wGame.table ≠ [] := by
  constructor
  · decide
  · decide

/-- C4, amended.  If no capture ever occurred the sweep is a complete
no-op — table and builds are left as they are and nothing is assigned to
any player; if player `li` is the last capturer, every remaining loose
card and every build's cards are appended to `li`'s pile and table and
builds end empty. -/
theorem collect_remaining_table_amended :
    (∀ g : Game, g.lastCapturer = none → collectRemainingTable g = g) ∧
    (∀ (g : Game) (li : Nat) (pl : Player), g.lastCapturer = some li →
       g.players.get? li = some pl →
       collectRemainingTable g
         = { g with
             players := g.players.set li { pl with
               captured := pl.captured ++ g.table ++ g.builds.flatMap Build.cards },
             table := [], builds := [] }) := by
  constructor
  · intro g hl
    simp [collectRemainingTable, hl]
  · intro g li pl hl hp
    exact collect_some_eq hl hp

theorem collect_remaining_table_amended_witness :
    collectRemainingTable wGame = wGame ∧
      collectRemainingTable wGameLC
        = { wGameLC with
            players := wGameLC.players.set 1 { wGameP2 with
              captured := wGameP2.captured ++ wGameLC.table
                ++ wGameLC.builds.flatMap Build.cards },
            table := [], builds := [] } :=
  ⟨(collect_remaining_table_amended).1 wGame rfl,
   (collect_remaining_table_amended).2 wGameLC 1 wGameP2 rfl (by decide)⟩

/-- C7.  Capture ordering: a `capture` appends the hand card then the
table card to the acting player's pile; a `capture_build` appends the
hand card then the build's cards in stored order; both set
`last_capturer` to the acting player. -/
theorem capture_ordering :
    (∀ (g : Game) (p hi ti : Nat) (pl : Player) (card tcard : Card),
       g.players.get? p = some pl → pl.hand.get? hi = some card →
       g.table.get? ti = some tcard →
       applyAction g p { kind := "capture", hand_index := some hi, table_index := some ti }
         = .ok { g with
                 players := g.players.set p { pl with
                   hand := pl.hand.eraseIdx hi,
                   captured := pl.captured ++ [card, tcard] },
                 table := g.table.eraseIdx ti, lastCapturer := some p }) ∧
    (∀ (g : Game) (p hi bi : Nat) (pl : Player) (card : Card) (b : Build),
       g.players.get? p = some pl → pl.hand.get? hi = some card →
       g.builds.get? bi = some b →
       applyAction g p { kind := "capture_build", hand_index := some hi,
                         build_index := some bi }
         = .ok { g with
                 players := g.players.set p { pl with
                   hand := pl.hand.eraseIdx hi,
                   captured := pl.captured ++ card :: b.cards },
                 builds := g.builds.eraseIdx bi, lastCapturer := some p }) :=
  ⟨fun _ _ _ _ _ _ _ hp hhi hti => applyAction_capture_eq hp hhi hti,
   fun _ _ _ _ _ _ _ hp hhi hbi => applyAction_capture_build_eq hp hhi hbi⟩

theorem capture_ordering_witness :
    applyAction wGame 0 { kind := "capture", hand_index := some 0, table_index := some 1 }
      = .ok { wGame with
              players := wGame.players.set 0 { wGameP1 with
                hand := wGameP1.hand.eraseIdx 0,
                captured := wGameP1.captured ++ [⟨5, "S"⟩, ⟨5, "D"⟩] },
              table := wGame.table.eraseIdx 1, lastCapturer := some 0 } ∧
    applyAction wGame 0 { kind := "capture_build", hand_index := some 1, build_index := some 0 }
      = .ok { wGame with
              players := wGame.players.set 0 { wGameP1 with
                hand := wGameP1.hand.eraseIdx 1,
                captured := wGameP1.captured
                  ++ ⟨3, "D"⟩ :: (⟨[⟨1, "S"⟩, ⟨2, "S"⟩], some 3⟩ : Build).cards },
              builds := wGame.builds.eraseIdx 0, lastCapturer := some 0 } :=
  ⟨(capture_ordering).1 wGame 0 0 1 wGameP1 ⟨5, "S"⟩ ⟨5, "D"⟩ (by decide) (by decide)
      (by decide),
   (capture_ordering).2 wGame 0 1 0 wGameP1 ⟨3, "D"⟩ ⟨[⟨1, "S"⟩, ⟨2, "S"⟩], some 3⟩
      (by decide) (by decide) (by decide)⟩

/-- C5.  Steal semantics: `steal_build` removes exactly the last element
of the named opponent's pile (a one-card pile ends empty) and combines
it with the named table card into a new build with the given total,
leaving `last_capturer` untouched; done twice in a row it removes the
last then the second-to-last element — distinct cards whenever the pile
has no duplicates. -/
theorem steal_build_semantics :
    (∀ (g : Game) (p si ti tt : Nat) (pl opp : Player) (cs : List Card) (c tc : Card),
       g.players.get? p = some pl → g.players.get? si = some opp →
       opp.captured = cs ++ [c] → g.table.get? ti = some tc →
       applyAction g p { kind := "steal_build", table_index := some ti,
                         target_total := some tt, steal_from := some si }
         = .ok { g with players := g.players.set si { opp with captured := cs },
                        table := g.table.eraseIdx ti,
                        builds := g.builds ++ [⟨[c, tc], some tt⟩] }) ∧
    (∀ (g : Game) (p si ti1 tt1 ti2 tt2 : Nat) (pl opp : Player) (cs : List Card)
       (c1 c2 tc1 tc2 : Card),
       g.players.get? p = some pl → g.players.get? si = some opp →
       opp.captured = cs ++ [c1, c2] →
       g.table.get? ti1 = some tc1 → (g.table.eraseIdx ti1).get? ti2 = some tc2 →
       ∃ g1, applyAction g p { kind := "steal_build", table_index := some ti1,
                               target_total := some tt1, steal_from := some si } = .ok g1 ∧
         applyAction g1 p { kind := "steal_build", table_index := some ti2,
                            target_total := some tt2, steal_from := some si }
           = .ok { g with players := g.players.set si { opp with captured := cs },
                          table := (g.table.eraseIdx ti1).eraseIdx ti2,
                          builds := g.builds
                            ++ [⟨[c2, tc1], some tt1⟩, ⟨[c1, tc2], some tt2⟩] } ∧
         (opp.captured.Nodup → c2 ≠ c1)) := by
  constructor
  · intro g p si ti tt pl opp cs c tc hp hsi hcap hti
    exact applyAction_steal_eq tt hp hsi hcap hti
  · intro g p si ti1 tt1 ti2 tt2 pl opp cs c1 c2 tc1 tc2 hp hsi hcap hti1 hti2
    have hcap1 : opp.captured = (cs ++ [c1]) ++ [c2] := by
      rw [hcap, List.append_assoc]
      rfl
    have h1 := applyAction_steal_eq tt1 hp hsi hcap1 hti1
    have hlt : si < g.players.length := get?_lt_length hsi
    have hsi1 : (g.players.set si { opp with captured := cs ++ [c1] }).get? si
        = some { opp with captured := cs ++ [c1] } := List.get?_set_eq_of_lt _ hlt
    obtain ⟨pl1, hp1⟩ : ∃ pl1,
        (g.players.set si { opp with captured := cs ++ [c1] }).get? p = some pl1 := by
      by_cases hsp : si = p
      · subst hsp
        exact ⟨_, hsi1⟩
      · refine ⟨pl, ?_⟩
        rw [List.get?_set_ne _ _ hsp]
        exact hp
    have h2 := applyAction_steal_eq
      (g := { g with players := g.players.set si { opp with captured := cs ++ [c1] },
                     table := g.table.eraseIdx ti1,
                     builds := g.builds ++ [⟨[c2, tc1], some tt1⟩] })
      tt2 hp1 hsi1 rfl hti2
    refine ⟨_, h1, ?_, ?_⟩
    · rw [h2]
      simp [List.set_set]
    · intro hnd
      rw [hcap, List.nodup_append] at hnd
      have h12 : c1 ≠ c2 := by simpa using hnd.2.1
      exact fun hc => h12 hc.symm

theorem steal_build_semantics_witness :
    ∃ g1,
      applyAction wGame 0
          { kind := "steal_build", table_index := some 0, target_total := some 7,
            steal_from := some 1 }
        = .ok g1 ∧
      applyAction g1 0
          { kind := "steal_build", table_index := some 0, target_total := some 7,
            steal_from := some 1 }
        = .ok { wGame with
                players := wGame.players.set 1 { wGameP2 with captured := [] },
                table := (wGame.table.eraseIdx 0).eraseIdx 0,
                builds := wGame.builds
                  ++ [⟨[⟨4, "D"⟩, ⟨3, "H"⟩], some 7⟩, ⟨[⟨2, "H"⟩, ⟨5, "D"⟩], some 7⟩] } ∧
      (wGameP2.captured.Nodup → (⟨4, "D"⟩ : Card) ≠ ⟨2, "H"⟩) :=
  (steal_build_semantics).2 wGame 0 1 0 7 0 7 wGameP1 wGameP2 [] ⟨2, "H"⟩ ⟨4, "D"⟩
    ⟨3, "H"⟩ ⟨5, "D"⟩ (by decide) (by decide) rfl (by decide) (by decide)

/-- C10.  `apply_action` never validates `steal_from`: `legal_moves`
never offers a self-steal, yet a `steal_build` naming the acting player
succeeds whenever that player's own pile is non-empty and the table
index is in range, moving the player's own most recent capture into the
new build. -/
theorem steal_from_unvalidated :
    (∀ (g : Game) (p : Nat) (a : Action), a ∈ legalMoves g p → a.kind = "steal_build" →
       a.steal_from ≠ some p) ∧
    (∀ (g : Game) (p ti tt : Nat) (pl : Player) (cs : List Card) (c tc : Card),
       g.players.get? p = some pl → pl.captured = cs ++ [c] → g.table.get? ti = some tc →
       applyAction g p { kind := "steal_build", table_index := some ti,
                         target_total := some tt, steal_from := some p }
         = .ok { g with players := g.players.set p { pl with captured := cs },
                        table := g.table.eraseIdx ti,
                        builds := g.builds ++ [⟨[c, tc], some tt⟩] }) := by
  constructor
  · intro g p a h hk
    unfold legalMoves at h
    cases hp : g.players.get? p with
    | none => rw [hp] at h; simp at h
    | some player =>
      rw [hp, List.mem_append] at h
      rcases h with h | h
      · obtain ⟨j, card, hj, hcase⟩ := mem_handMoves 0 player.hand h
        rcases hcase with ha | ⟨_, _, _, _, ha⟩ | ⟨_, _, _, _, ha⟩ | ⟨_, _, _, ha⟩ <;>
          subst ha <;> simp at hk
      · obtain ⟨j, opp, hj, hne, _, top, _, ti, tc, _, _, ha⟩ := mem_stealMoves 0 g.players h
        subst ha
        show some (0 + j) ≠ some p
        intro hc
        exact hne (Option.some.inj hc)
  · intro g p ti tt pl cs c tc hp hcap hti
    exact applyAction_steal_eq tt hp hp hcap hti

theorem steal_from_unvalidated_witness :
    (({ kind := "steal_build", table_index := some 0, target_total := some 7,
        steal_from := some 1 } : Action).steal_from ≠ some 0) ∧
      applyAction wGame 0
          { kind := "steal_build", table_index := some 0, target_total := some 12,
            steal_from := some 0 }
        = .ok { wGame with
                players := wGame.players.set 0 { wGameP1 with captured := [⟨7, "C"⟩] },
                table := wGame.table.eraseIdx 0,
                builds := wGame.builds ++ [⟨[⟨9, "H"⟩, ⟨3, "H"⟩], some 12⟩] } :=
  ⟨(steal_from_unvalidated).1 wGame 0
      { kind := "steal_build", table_index := some 0, target_total := some 7,
        steal_from := some 1 } (by decide) rfl,
   (steal_from_unvalidated).2 wGame 0 0 12 wGameP1 [⟨7, "C"⟩] ⟨9, "H"⟩ ⟨3, "H"⟩
      (by decide) rfl (by decide)⟩

theorem countP_value_suit_eq_count (pile : List Card) (v : Nat) (s : String) :
    pile.countP (fun c => c.value == v && c.suit == s) = pile.count (⟨v, s⟩ : Card) := by
  show pile.countP _ = pile.countP _
  apply List.countP_congr
  intro c _
  cases c with
  | mk cv cs =>
    by_cases h1 : cv = v <;> by_cases h2 : cs = s <;>
      simp [h1, h2, Card.mk.injEq]

theorem count_mem_indicator {pile : List Card} (hnd : pile.Nodup) (a : Card) :
    pile.count a = if a ∈ pile then 1 else 0 := by
  split
  next hmem => exact List.count_eq_one_of_mem hnd hmem
  next hmem => exact List.count_eq_zero.mpr hmem

/-- C6.  Scoring: on a duplicate-free pile the computed score is exactly
+1 per Ace, +1 for the 2♠ if present, +1 for the 10♦ if present, the
spade-majority bonus (+2 for ≥ 6 spades, +1 for exactly 5), and +1 for a
pile of ≥ 21 cards; the two example piles of the spec score 4 and 3. -/
theorem score_formula :
    (∀ pile : List Card, pile.Nodup → scorePile pile = specScore pile) ∧
    scorePile examplePileA = 4 ∧ scorePile examplePileB = 3 := by
  refine ⟨?_, by decide, by decide⟩
  intro pile hnd
  unfold scorePile specScore
  rw [countP_value_suit_eq_count pile 2 "S", countP_value_suit_eq_count pile 10 "D",
    count_mem_indicator hnd, count_mem_indicator hnd]

theorem score_formula_witness :
    scorePile examplePileA = specScore examplePileA :=
  (score_formula).1 examplePileA (by decide)

/-- C8.  3-player opening exchange: scanning the dealt hands in player
order, the first hand holding the 3♥ swaps it for the table starter —
the table then shows exactly the 3♥, that hand holds the starter and
still has 13 cards, the other hands are as dealt; when nobody holds the
3♥ the starter stays on the table. -/
theorem three_player_opening_exchange (deck : List Card) (hperm : deck.Perm fullDeck)
    (g : Game) (hg : setupGame 3 deck = some g) (starter : Card)
    (hs : (deck.drop 39).getLast? = some starter) :
    (threeOfHearts ∈ deck.take 13 →
       g.table = [threeOfHearts] ∧
       g.players.map Player.hand
         = [(deck.take 13).erase threeOfHearts ++ [starter],
            (deck.drop 13).take 13, (deck.drop 26).take 13] ∧
       ((deck.take 13).erase threeOfHearts ++ [starter]).length = 13 ∧
       starter ∈ (deck.take 13).erase threeOfHearts ++ [starter]) ∧
    (threeOfHearts ∉ deck.take 13 → threeOfHearts ∈ (deck.drop 13).take 13 →
       g.table = [threeOfHearts] ∧
       g.players.map Player.hand
         = [deck.take 13, ((deck.drop 13).take 13).erase threeOfHearts ++ [starter],
            (deck.drop 26).take 13] ∧
       (((deck.drop 13).take 13).erase threeOfHearts ++ [starter]).length = 13 ∧
       starter ∈ ((deck.drop 13).take 13).erase threeOfHearts ++ [starter]) ∧
    (threeOfHearts ∉ deck.take 13 → threeOfHearts ∉ (deck.drop 13).take 13 →
     threeOfHearts ∈ (deck.drop 26).take 13 →
       g.table = [threeOfHearts] ∧
       g.players.map Player.hand
         = [deck.take 13, (deck.drop 13).take 13,
            ((deck.drop 26).take 13).erase threeOfHearts ++ [starter]] ∧
       (((deck.drop 26).take 13).erase threeOfHearts ++ [starter]).length = 13 ∧
       starter ∈ ((deck.drop 26).take 13).erase threeOfHearts ++ [starter]) ∧
    (threeOfHearts ∉ deck.take 13 → threeOfHearts ∉ (deck.drop 13).take 13 →
     threeOfHearts ∉ (deck.drop 26).take 13 →
       g.table = [starter] ∧
       g.players.map Player.hand
         = [deck.take 13, (deck.drop 13).take 13, (deck.drop 26).take 13]) := by
  have hlen : deck.length = 40 := by rw [hperm.length_eq]; decide
  have hdrop26 : (deck.drop 13).drop 13 = deck.drop 26 := by
    rw [List.drop_drop]
  have hrest : (deck.drop 26).drop 13 = [starter] := by
    rw [List.drop_drop]
    have h1 : (deck.drop 39).length = 1 := by rw [List.length_drop, hlen]
    obtain ⟨a, ha⟩ := List.length_eq_one.mp h1
    rw [ha] at hs ⊢
    simp only [List.getLast?_singleton, Option.some.injEq] at hs
    rw [hs]
  have hdh : dealHands 3 13 deck
      = ([deck.take 13, (deck.drop 13).take 13, ((deck.drop 13).drop 13).take 13],
         ((deck.drop 13).drop 13).drop 13) := rfl
  rw [hdrop26, hrest] at hdh
  unfold setupGame at hg
  rw [hdh] at hg
  norm_num [List.getLast?_singleton] at hg
  have hg' : resolveThreeOfHeartsExchange
      { playerCount := 3,
        players := mkPlayers 0 [deck.take 13, (deck.drop 13).take 13, (deck.drop 26).take 13],
        table := [starter], builds := [], stock := [], lastCapturer := none,
        activePlayer := 0 } = g := hg
  have hlen1 : (deck.take 13).length = 13 := by
    rw [List.length_take, hlen]
    decide
  have hlen2 : ((deck.drop 13).take 13).length = 13 := by
    rw [List.length_take, List.length_drop, hlen]
    decide
  have hlen3 : ((deck.drop 26).take 13).length = 13 := by
    rw [List.length_take, List.length_drop, hlen]
    decide
  refine ⟨?_, ?_, ?_, ?_⟩
  · intro m1
    rw [← hg']
    refine ⟨?_, ?_, ?_, ?_⟩
    · simp [resolveThreeOfHeartsExchange, exchangeLoop, mkPlayers, m1]
    · simp [resolveThreeOfHeartsExchange, exchangeLoop, mkPlayers, m1]
    · rw [List.length_append, List.length_erase_of_mem m1, hlen1]
      simp
    · exact List.mem_append_right _ (List.mem_singleton.mpr rfl)
  · intro m1 m2
    rw [← hg']
    refine ⟨?_, ?_, ?_, ?_⟩
    · simp [resolveThreeOfHeartsExchange, exchangeLoop, mkPlayers, m1, m2]
    · simp [resolveThreeOfHeartsExchange, exchangeLoop, mkPlayers, m1, m2]
    · rw [List.length_append, List.length_erase_of_mem m2, hlen2]
      simp
    · exact List.mem_append_right _ (List.mem_singleton.mpr rfl)
  · intro m1 m2 m3
    rw [← hg']
    refine ⟨?_, ?_, ?_, ?_⟩
    · simp [resolveThreeOfHeartsExchange, exchangeLoop, mkPlayers, m1, m2, m3]
    · simp [resolveThreeOfHeartsExchange, exchangeLoop, mkPlayers, m1, m2, m3]
    · rw [List.length_append, List.length_erase_of_mem m3, hlen3]
      simp
    · exact List.mem_append_right _ (List.mem_singleton.mpr rfl)
  · intro m1 m2 m3
    rw [← hg']
    constructor
    · simp [resolveThreeOfHeartsExchange, exchangeLoop, mkPlayers, m1, m2, m3]
    · simp [resolveThreeOfHeartsExchange, exchangeLoop, mkPlayers, m1, m2, m3]

theorem three_player_opening_exchange_witness :
    ((setupGame 3 fullDeck).getD emptyGame).table = [threeOfHearts] ∧
    ((setupGame 3 fullDeck).getD emptyGame).players.map Player.hand
      = [(fullDeck.take 13).erase threeOfHearts ++ [⟨10, "C"⟩],
         (fullDeck.drop 13).take 13, (fullDeck.drop 26).take 13] ∧
    ((fullDeck.take 13).erase threeOfHearts ++ [(⟨10, "C"⟩ : Card)]).length = 13 ∧
    (⟨10, "C"⟩ : Card) ∈ (fullDeck.take 13).erase threeOfHearts ++ [(⟨10, "C"⟩ : Card)] :=
  (three_player_opening_exchange fullDeck (List.Perm.refl _) _ (by decide) ⟨10, "C"⟩
      (by decide)).1 (by decide)

end Casino
